import Mathlib

/-!
Verification development for the PicoScenes CSI collection scripts.

The definitions below are a shallow embedding of the CSI frame-matrix
extraction and link-statistics pipeline that is repeated across
`complete_csi.py`, `csi_inspector.py`, `csi_metadata.py` and `csi_viz.py`:

* `CsiBlock`, `StdHeader`, `Frame` model one parsed capture record (a frame
  dictionary with an optional `StandardHeader` dict and an optional `CSI`
  dict).  Numeric payloads (`Mag`, `Phase`) are carried as rational lists;
  the builder never does arithmetic on them, it only moves them around.
* `buildStep` / `buildRowsM` / `buildRows` embed the amplitude/phase matrix
  assembly loop (`complete_csi.py` lines 200-234, `csi_inspector.py`
  409-442, `csi_metadata.py` 186-217, `csi_viz.py` 90-121).
* `analyzePipeline` embeds the outcome structure of `analyze_csi` in
  `complete_csi.py`: early return when no CSI-bearing frame exists,
  a raised error when no frame survives the emptiness/shape check.
* `macToStr`, `normS`, `is_valid_unicast`, `collectMacs`,
  `collectMacsMeta`, `findPrimaryPair`, `rxListMeta`, `mostCommon` embed
  the MAC-address extraction passes.
* `durationSec`, `csiRate` embed the timing statistics.
* `freqMappingComplete`, `freqMappingInspector` embed the two (different)
  frequency-offset derivations.
* `unwrap` embeds `np.unwrap` along the tone axis over exact reals.
-/

/-- One `CSI` dictionary: the amplitude (`Mag`) and phase (`Phase`) numeric
vectors already flattened to 1-D, plus the two metadata fields the
frequency mapping reads.  A missing metadata key is `none`. -/
structure CsiBlock where
  mag : List ℚ
  phase : List ℚ
  subcarrierIndex : Option (List ℤ)
  subcarrierBandwidth : Option ℚ
  deriving DecidableEq, Repr

/-- One resolved `StandardHeader` dictionary: the three 6-byte address
slots (`Addr1`/`addr1`, …) after the casing fallback, each `none` when the
key is absent.  Bytes are carried as naturals; the formatter reduces them
mod 256 exactly as the `np.uint8` conversion does. -/
structure StdHeader where
  addr1 : Option (List ℕ)
  addr2 : Option (List ℕ)
  addr3 : Option (List ℕ)
  deriving DecidableEq, Repr

/-- One captured frame record: optional header dict, optional CSI dict,
and the timestamp already extracted from `RxSBasic` (`none` when missing). -/
structure Frame where
  standardHeader : Option StdHeader
  csi : Option CsiBlock
  rxTimestamp : Option ℤ
  deriving DecidableEq, Repr

/-! ## Matrix builder -/

/-- One iteration of the matrix-assembly loop.  The accumulator is the pair
`(Amp_list, Phase_list)`.  A frame is skipped when either vector is empty,
or when `Amp_list` is non-empty and the `Mag` length differs from
`Amp_list[0]`'s length; otherwise both vectors are appended.  Mirrors
`complete_csi.py` lines 212-227. -/
def buildStep (acc : List (List ℚ) × List (List ℚ)) (c : CsiBlock) :
    List (List ℚ) × List (List ℚ) :=
  if c.mag.isEmpty || c.phase.isEmpty then acc
  else
    match acc.1 with
    | [] => ([c.mag], [c.phase])
    | a0 :: _ =>
      if c.mag.length = a0.length then (acc.1 ++ [c.mag], acc.2 ++ [c.phase])
      else acc

/-- One iteration of the full loop body including the `csi_meta` capture:
the first CSI block seen is recorded as metadata *before* the emptiness
and shape checks run (`complete_csi.py` lines 209-210). -/
def buildStepM (acc : (List (List ℚ) × List (List ℚ)) × Option CsiBlock)
    (c : CsiBlock) : (List (List ℚ) × List (List ℚ)) × Option CsiBlock :=
  (buildStep acc.1 c, match acc.2 with | none => some c | some m => some m)

/-- The matrix-assembly loop over all CSI blocks, returning
`((Amp_list, Phase_list), csi_meta)`. -/
def buildRowsM (fs : List CsiBlock) :
    (List (List ℚ) × List (List ℚ)) × Option CsiBlock :=
  fs.foldl buildStepM (([], []), none)

/-- Just the two stacked matrices (as row lists). -/
def buildRows (fs : List CsiBlock) : List (List ℚ) × List (List ℚ) :=
  (buildRowsM fs).1

/-- Declarative description of the accepted frames: keep the frames whose
`Mag` and `Phase` are both non-empty, then keep those whose `Mag` length
equals the first such frame's `Mag` length. -/
def acceptedOf (fs : List CsiBlock) : List CsiBlock :=
  match fs.filter (fun c => !c.mag.isEmpty && !c.phase.isEmpty) with
  | [] => []
  | c :: rest =>
    c :: rest.filter (fun d => d.mag.length = c.mag.length)

/-- Every pair of rows of the matrix has the same length. -/
def AllRowsSameLength (m : List (List ℚ)) : Prop :=
  ∀ r ∈ m, ∀ r' ∈ m, r.length = r'.length

instance (m : List (List ℚ)) : Decidable (AllRowsSameLength m) := by
  unfold AllRowsSameLength; infer_instance

/-- The per-step metadata update never clears recorded metadata. -/
lemma buildStepM_fst (acc : (List (List ℚ) × List (List ℚ)) × Option CsiBlock)
    (c : CsiBlock) : (buildStepM acc c).1 = buildStep acc.1 c := rfl

/-- The matrix part of `buildRowsM` is the plain `buildStep` fold. -/
lemma buildRowsM_fst_eq (fs : List CsiBlock) :
    ∀ acc : (List (List ℚ) × List (List ℚ)) × Option CsiBlock,
      (fs.foldl buildStepM acc).1 = fs.foldl buildStep acc.1 := by
  induction fs with
  | nil => intro acc; rfl
  | cons c fs ih =>
    intro acc
    simp only [List.foldl_cons]
    rw [ih]
    rfl

/-- `buildRows` as a plain fold of `buildStep`. -/
lemma buildRows_eq_foldl (fs : List CsiBlock) :
    buildRows fs = fs.foldl buildStep ([], []) := by
  unfold buildRows buildRowsM
  rw [buildRowsM_fst_eq]

/-- Metadata is the first CSI block of the list, regardless of whether it
survives the emptiness/shape check. -/
lemma buildRowsM_snd_some (fs : List CsiBlock) :
    ∀ acc m, (fs.foldl buildStepM (acc, some m)).2 = some m := by
  induction fs with
  | nil => intro acc m; rfl
  | cons c fs ih =>
    intro acc m
    simp only [List.foldl_cons]
    exact ih _ m

/-- Metadata of the full run is the head of the block list. -/
lemma buildRowsM_snd (fs : List CsiBlock) : (buildRowsM fs).2 = fs.head? := by
  cases fs with
  | nil => rfl
  | cons c fs =>
    unfold buildRowsM
    simp only [List.foldl_cons]
    exact buildRowsM_snd_some fs _ c

/-- The acceptance test applied after the first frame fixed the expected
length `a0`: the `Mag` length must match, and both vectors are non-empty. -/
def keepWith (a0 : List ℚ) (c : CsiBlock) : Bool :=
  decide (c.mag.length = a0.length) && (!c.mag.isEmpty && !c.phase.isEmpty)

/-- From a non-empty accumulator with first row `a0`, the rest of the fold
appends exactly the frames whose vectors are non-empty and whose `Mag`
length equals `a0`'s length, in order, to both matrices. -/
lemma buildStep_foldl_cons (a0 : List ℚ) (fs : List CsiBlock) :
    ∀ (amps phs : List (List ℚ)),
      fs.foldl buildStep (a0 :: amps, phs) =
        (a0 :: (amps ++ (fs.filter (keepWith a0)).map CsiBlock.mag),
         phs ++ (fs.filter (keepWith a0)).map CsiBlock.phase) := by
  induction fs with
  | nil => intro amps phs; simp
  | cons c fs ih =>
    intro amps phs
    by_cases hme : c.mag.isEmpty
    · have hstep : buildStep (a0 :: amps, phs) c = (a0 :: amps, phs) := by
        unfold buildStep; simp [hme]
      simp only [List.foldl_cons, hstep, List.filter_cons]
      simp [keepWith, hme, ih]
    · by_cases hpe : c.phase.isEmpty
      · have hstep : buildStep (a0 :: amps, phs) c = (a0 :: amps, phs) := by
          unfold buildStep; simp [hpe]
        simp only [List.foldl_cons, hstep, List.filter_cons]
        simp [keepWith, hme, hpe, ih]
      · by_cases hlen : c.mag.length = a0.length
        · have hstep : buildStep (a0 :: amps, phs) c =
              (a0 :: (amps ++ [c.mag]), phs ++ [c.phase]) := by
            unfold buildStep; simp [hme, hpe, hlen]
          simp only [List.foldl_cons, hstep, List.filter_cons]
          simp only [keepWith, hme, hpe, hlen]
          rw [ih]
          simp
        · have hstep : buildStep (a0 :: amps, phs) c = (a0 :: amps, phs) := by
            unfold buildStep; simp [hme, hpe, hlen]
          simp only [List.foldl_cons, hstep, List.filter_cons]
          simp [keepWith, hme, hpe, hlen, ih]

/-- The runtime builder equals the declarative accepted-frame view: both
matrices are the `Mag` (resp. `Phase`) vectors of `acceptedOf fs`, stacked
in arrival order. -/
lemma buildRows_spec (fs : List CsiBlock) :
    buildRows fs = ((acceptedOf fs).map CsiBlock.mag,
                    (acceptedOf fs).map CsiBlock.phase) := by
  rw [buildRows_eq_foldl]
  induction fs with
  | nil => rfl
  | cons c fs ih =>
    by_cases hme : c.mag.isEmpty
    · have hstep : buildStep ([], []) c = ([], []) := by
        unfold buildStep; simp [hme]
      have : acceptedOf (c :: fs) = acceptedOf fs := by
        unfold acceptedOf; simp [List.filter_cons, hme]
      simp only [List.foldl_cons, hstep, this]
      exact ih
    · by_cases hpe : c.phase.isEmpty
      · have hstep : buildStep ([], []) c = ([], []) := by
          unfold buildStep; simp [hpe]
        have : acceptedOf (c :: fs) = acceptedOf fs := by
          unfold acceptedOf; simp [List.filter_cons, hme, hpe]
        simp only [List.foldl_cons, hstep, this]
        exact ih
      · have hstep : buildStep ([], []) c = ([c.mag], [c.phase]) := by
          unfold buildStep; simp [hme, hpe]
        have hacc : acceptedOf (c :: fs) =
            c :: (fs.filter (fun d => !d.mag.isEmpty && !d.phase.isEmpty)).filter
              (fun d => (d.mag.length = c.mag.length : Bool)) := by
          unfold acceptedOf; simp [List.filter_cons, hme, hpe]
        simp only [List.foldl_cons, hstep, hacc]
        rw [buildStep_foldl_cons c.mag fs [] [c.phase], List.filter_filter]
        simp only [List.nil_append, List.singleton_append, List.map_cons]
        have hkw : keepWith c.mag = fun a =>
            decide (a.mag.length = c.mag.length) &&
              (!a.mag.isEmpty && !a.phase.isEmpty) := by
          funext d; rfl
        rw [hkw]

/-- Every accepted frame's `Mag` length equals the first accepted frame's. -/
lemma acceptedOf_mag_length (fs : List CsiBlock) :
    ∀ c ∈ acceptedOf fs, ∀ c' ∈ acceptedOf fs, c.mag.length = c'.mag.length := by
  unfold acceptedOf
  cases h : fs.filter (fun c => !c.mag.isEmpty && !c.phase.isEmpty) with
  | nil => simp
  | cons c0 rest =>
    intro c hc c' hc'
    have hlen : ∀ d, d ∈ c0 :: rest.filter
        (fun d => (d.mag.length = c0.mag.length : Bool)) →
        d.mag.length = c0.mag.length := by
      intro d hd
      rcases List.mem_cons.mp hd with h1 | h2
      · rw [h1]
      · have := List.of_mem_filter h2
        simpa using this
    rw [hlen c hc, hlen c' hc']

/-! ## Pipeline outcomes (`complete_csi.py` `analyze_csi`) -/

/-- The three observable outcomes of `analyze_csi` in `complete_csi.py`:
the early `return` after printing "No frames with 'CSI' field found"
(line 126-128), the raised `RuntimeError("No valid CSI Mag/Phase arrays
found in frames.")` (line 229-230), and a successful run carrying the two
stacked matrices. -/
inductive Outcome where
  | noCsiFrames : Outcome
  | noCsiData : Outcome
  | ok : List (List ℚ) → List (List ℚ) → Outcome
  deriving DecidableEq, Repr

/-- The outcome skeleton of `analyze_csi`: filter CSI-bearing frames; stop
with `noCsiFrames` when there are none; otherwise run the matrix loop over
the CSI dicts and stop with `noCsiData` when no row was accepted. -/
def analyzePipeline (frames : List Frame) : Outcome :=
  if (frames.filter (fun f => f.csi.isSome)).isEmpty then Outcome.noCsiFrames
  else
    let br := buildRowsM (frames.filterMap Frame.csi)
    if br.1.1.isEmpty then Outcome.noCsiData
    else Outcome.ok br.1.1 br.1.2

/-! ## MAC utilities -/

/-- Uppercase hex digit for a value below 16 (`f"{b:02X}"`). -/
def hexChar (n : ℕ) : Char :=
  if n < 10 then Char.ofNat (48 + n) else Char.ofNat (65 + n - 10)

/-- Two-digit uppercase hex rendering of one byte; the input is reduced
mod 256 as the `np.uint8` conversion does. -/
def byteToHex (b : ℕ) : String :=
  String.mk [hexChar (b % 256 / 16), hexChar (b % 256 % 16)]

/-- `mac_to_str`: `None` stays `None`; fewer than six bytes is rejected;
otherwise the first six bytes are rendered `"AA:BB:CC:DD:EE:FF"`. -/
def macToStr (field : Option (List ℕ)) : Option String :=
  match field with
  | none => none
  | some bs =>
    if bs.length < 6 then none
    else some (String.intercalate ":" ((bs.take 6).map byteToHex))

/-- The whitespace set of Python's `str.strip()` (ASCII part). -/
def isSpaceChar (c : Char) : Bool :=
  c = ' ' ∨ c = '\t' ∨ c = '\n' ∨ c = '\r' ∨ c = '\x0B' ∨ c = '\x0C'

/-- `str.strip()` on a character list: drop whitespace from both ends. -/
def pyStrip (cs : List Char) : List Char :=
  ((cs.dropWhile isSpaceChar).reverse.dropWhile isSpaceChar).reverse

/-- ASCII `str.upper()` on one character. -/
def upChar (c : Char) : Char := c.toUpper

/-- `norm_mac` body on a present string: `mac.strip().upper()`. -/
def normS (s : String) : String := String.mk ((pyStrip s.data).map upChar)

/-- `norm_mac`: `None` stays `None`, otherwise strip and uppercase. -/
def normMac (m : Option String) : Option String := m.map normS

/-! ## Python `int(s, 16)` and `is_valid_unicast` -/

/-- Value of one hexadecimal digit character, `none` for anything else. -/
def hexDigitVal (c : Char) : Option ℕ :=
  if 48 ≤ c.toNat ∧ c.toNat ≤ 57 then some (c.toNat - 48)
  else if 97 ≤ c.toNat ∧ c.toNat ≤ 102 then some (c.toNat - 97 + 10)
  else if 65 ≤ c.toNat ∧ c.toNat ≤ 70 then some (c.toNat - 65 + 10)
  else none

/-- Remaining hex digits after the first one: a single underscore may
separate two digits, none may trail. -/
def hexDigitsAux : ℕ → List Char → Option ℕ
  | acc, [] => some acc
  | acc, '_' :: c :: cs =>
    match hexDigitVal c with
    | some v => hexDigitsAux (acc * 16 + v) cs
    | none => none
  | acc, c :: cs =>
    match hexDigitVal c with
    | some v => hexDigitsAux (acc * 16 + v) cs
    | none => none

/-- A non-empty run of hex digits (underscore-separated), as a natural. -/
def parseHexBody (cs : List Char) : Option ℕ :=
  match cs with
  | [] => none
  | c :: rest =>
    match hexDigitVal c with
    | some v => hexDigitsAux v rest
    | none => none

/-- Digits with the optional `0x`/`0X` prefix (an underscore may follow the
prefix, as CPython accepts). -/
def parseAfterSign (cs : List Char) : Option ℕ :=
  match cs with
  | '0' :: x :: rest =>
    if x = 'x' ∨ x = 'X' then
      match rest with
      | '_' :: rest' => parseHexBody rest'
      | _ => parseHexBody rest
    else parseHexBody cs
  | _ => parseHexBody cs

/-- Model of Python `int(s, 16)`: surrounding whitespace is stripped, an
optional sign precedes the digits, and failure is `none`. -/
def pyIntHex (s : String) : Option ℤ :=
  match pyStrip s.data with
  | '+' :: rest => (parseAfterSign rest).map Int.ofNat
  | '-' :: rest => (parseAfterSign rest).map (fun n => -(n : ℤ))
  | cs => (parseAfterSign cs).map Int.ofNat

/-- `mac.split(":")[0]`: the text before the first colon. -/
def firstField (s : String) : String :=
  String.mk (s.data.takeWhile (fun c => c ≠ ':'))

/-- `is_valid_unicast` (`csi_inspector.py` 178-190, `csi_metadata.py`
59-63): reject `None` and the two sentinel addresses, parse the first
colon-separated field as hex, and require its least-significant bit to
be 0.  `n % 2` over ℤ agrees with Python's `n & 1` (both are the
non-negative residue). -/
def is_valid_unicast (mac : Option String) : Bool :=
  match mac with
  | none => false
  | some m =>
    if m = "00:00:00:00:00:00" ∨ m = "FF:FF:FF:FF:FF:FF" then false
    else
      match pyIntHex (firstField m) with
      | none => false
      | some n => n % 2 = 0

/-! ## Link timing statistics -/

/-- `max(timestamps)` for a non-empty list given as head and tail. -/
def listMaxZ (t : ℤ) (ts : List ℤ) : ℤ := ts.foldl max t

/-- `min(timestamps)` for a non-empty list given as head and tail. -/
def listMinZ (t : ℤ) (ts : List ℤ) : ℤ := ts.foldl min t

/-- `time_span_sec` (`complete_csi.py` 175-182): computed only when at
least two timestamps exist, as `(max - min) / 1e6`; otherwise it stays
`None`. -/
def durationSec : List ℤ → Option ℚ
  | [] => none
  | [_] => none
  | t :: rest => some (((listMaxZ t rest - listMinZ t rest : ℤ) : ℚ) / 1000000)

/-- `csi_rate` (`complete_csi.py` 183-184): set to `num_csi /
time_span_sec` only when the span was computed and is strictly positive;
otherwise it stays `None`. -/
def csiRate (numCsi : ℕ) (ts : List ℤ) : Option ℚ :=
  match durationSec ts with
  | none => none
  | some d => if 0 < d then some ((numCsi : ℚ) / d) else none

/-! ## Frequency mapping -/

/-- The frequency-mapping block of `complete_csi.py` (342-368): abort
(`none`) only when `SubcarrierIndex` is missing or empty; a missing
`SubcarrierBandwidth` falls back to the `.get` default `0.0`, and the
offset list `sub_idx * delta_f` is emitted regardless. -/
def freqMappingComplete (meta : CsiBlock) : Option (List ℤ × List ℚ) :=
  match meta.subcarrierIndex with
  | none => none
  | some idx =>
    if idx.isEmpty then none
    else
      let df := meta.subcarrierBandwidth.getD 0
      some (idx, idx.map (fun i : ℤ => (i : ℚ) * df))

/-- The frequency-mapping block of `csi_inspector.py` (550-593): also
aborts (`none`) when `SubcarrierBandwidth` is missing or zero. -/
def freqMappingInspector (meta : CsiBlock) : Option (List ℤ × List ℚ) :=
  match meta.subcarrierIndex with
  | none => none
  | some idx =>
    if idx.isEmpty then none
    else
      match meta.subcarrierBandwidth with
      | none => none
      | some df =>
        if df = 0 then none
        else some (idx, idx.map (fun i : ℤ => (i : ℚ) * df))

/-! ## Address extraction passes -/

/-- Insertion into the `all_macs` set, modelled as an ordered list without
duplicates (membership is what the pipeline consumes). -/
def insertMac (acc : List String) (mac : String) : List String :=
  if mac ∈ acc then acc else acc ++ [mac]

/-- One address slot of the `complete_csi.py` MAC pass (lines 147-153):
convert, skip `None`, skip the two sentinel addresses, then add. -/
def addMac (acc : List String) (addr : Option (List ℕ)) : List String :=
  match macToStr addr with
  | none => acc
  | some mac =>
    if mac = "00:00:00:00:00:00" ∨ mac = "FF:FF:FF:FF:FF:FF" then acc
    else insertMac acc mac

/-- One frame of the `complete_csi.py` distinct-address pass: skip frames
without a header dict, otherwise process the three address slots. -/
def collectStep (acc : List String) (f : Frame) : List String :=
  match f.standardHeader with
  | none => acc
  | some sh => addMac (addMac (addMac acc sh.addr1) sh.addr2) sh.addr3

/-- The `complete_csi.py` distinct-address pass over all frames
(lines 133-153). -/
def collectMacs (frames : List Frame) : List String :=
  frames.foldl collectStep []

/-- One address slot of the `csi_metadata.py` MAC pass (lines 120-123):
normalize and add, with no sentinel exclusion (only falsy values are
skipped). -/
def addMacMeta (acc : List String) (addr : Option (List ℕ)) : List String :=
  match normMac (macToStr addr) with
  | none => acc
  | some mac => if mac = "" then acc else insertMac acc mac

/-- One frame of the `csi_metadata.py` distinct-address pass. -/
def collectStepMeta (acc : List String) (f : Frame) : List String :=
  match f.standardHeader with
  | none => acc
  | some sh => addMacMeta (addMacMeta (addMacMeta acc sh.addr1) sh.addr2) sh.addr3

/-- The `csi_metadata.py` distinct-address pass over all frames
(lines 115-123). -/
def collectMacsMeta (frames : List Frame) : List String :=
  frames.foldl collectStepMeta []

/-- The pair condition of `complete_csi.py` lines 156-163 evaluated on one
frame: `Addr1`/`Addr2` must be present and the converted receiver and
transmitter strings must be neither `None` nor a sentinel; on success the
frame yields `(tx_mac, rx_mac)`. -/
def primaryOfFrame (f : Frame) : Option (String × String) :=
  match f.standardHeader with
  | none => none
  | some sh =>
    match sh.addr1, sh.addr2 with
    | some a1, some a2 =>
      (match macToStr (some a1), macToStr (some a2) with
       | some rx, some tx =>
         if rx ≠ "00:00:00:00:00:00" ∧ rx ≠ "FF:FF:FF:FF:FF:FF" ∧
            tx ≠ "00:00:00:00:00:00" ∧ tx ≠ "FF:FF:FF:FF:FF:FF"
         then some (tx, rx)
         else none
       | _, _ => none)
    | _, _ => none

/-- The first-non-broadcast TX/RX pair scan of `complete_csi.py`
(lines 155-163): the first frame satisfying the pair condition fixes
`(tx_primary, rx_primary)`; frames failing it leave the scan running. -/
def findPrimaryPair : List Frame → Option (String × String)
  | [] => none
  | f :: fs =>
    match primaryOfFrame f with
    | some p => some p
    | none => findPrimaryPair fs

/-- `Counter(rx_list).most_common(1)[0][0]`: the element with the largest
multiplicity, ties resolved in favour of the earliest first occurrence
(Python's `Counter` preserves first-insertion order and `most_common`
sorts stably by count). -/
def mostCommon (l : List String) : Option String :=
  l.argmax (fun s => l.count s)

/-- One frame of the `rx_list` accumulation of `csi_metadata.py`
(lines 133-144): when the normalized transmitter equals the target, append
the normalized receiver if it is a valid unicast address. -/
def rxStepMeta (tgt : String) (acc : List String) (f : Frame) : List String :=
  match f.standardHeader with
  | none => acc
  | some sh =>
    if normMac (macToStr sh.addr2) = some tgt then
      match normMac (macToStr sh.addr1) with
      | some r => if is_valid_unicast (some r) then acc ++ [r] else acc
      | none => acc
    else acc

/-- The `rx_list` accumulation of `csi_metadata.py` (lines 129-144) over
the CSI-bearing frames. -/
def rxListMeta (tgt : String) (frames : List Frame) : List String :=
  (frames.filter (fun f => f.csi.isSome)).foldl (rxStepMeta tgt) []

/-- The `rx_primary` selection of `csi_metadata.py` (lines 161-162). -/
def rxPrimaryMeta (tgt : String) (frames : List Frame) : Option String :=
  mostCommon (rxListMeta tgt frames)

/-! ## Target-transmitter selection -/

/-- How the CSI frame subset was chosen (`csi_inspector.py` 297-330). -/
inductive FilterNote where
  | applied : FilterNote
  | targetNotObserved : FilterNote
  | noTargetGiven : FilterNote
  | disabled : FilterNote
  deriving DecidableEq, Repr

/-- The target-transmitter selection of `csi_inspector.py` `analyze_csi`
(lines 297-330): normalize the requested target (a falsy/empty string
counts as no target); when filtering is enabled and the target was
observed, keep the frames whose transmitter equals the target; when the
target was never observed, fall back to all CSI frames with the
`targetNotObserved` note. -/
def selectFramesInspector (useTxFilter : Bool) (target : Option String)
    (allMacs : List String) (csiAll : List Frame) : List Frame × FilterNote :=
  let tgtOpt : Option String :=
    match target with
    | none => none
    | some t => if t = "" then none else some (normS t)
  if useTxFilter then
    match tgtOpt with
    | some tgt =>
      if tgt = "" then (csiAll, FilterNote.noTargetGiven)
      else if tgt ∈ allMacs then
        (csiAll.filter (fun f =>
          match f.standardHeader with
          | none => false
          | some sh => normMac (macToStr sh.addr2) = some tgt),
         FilterNote.applied)
      else (csiAll, FilterNote.targetNotObserved)
    | none => (csiAll, FilterNote.noTargetGiven)
  else (csiAll, FilterNote.disabled)

/-- The target-transmitter selection of `csi_metadata.py` (lines 128-152):
same fallback, with the boolean recording whether filtering was applied. -/
def selectFramesMeta (tgt : String) (allMacs : List String)
    (csiAll : List Frame) : List Frame × Bool :=
  if tgt ∈ allMacs then
    (csiAll.filter (fun f =>
      match f.standardHeader with
      | none => false
      | some sh => normMac (macToStr sh.addr2) = some tgt), true)
  else (csiAll, false)

/-! ## Phase unwrap (`np.unwrap` along the tone axis, exact reals)

`np.unwrap(Phase, axis=1)` with the default `discont = period/2 = π`
applied row-wise (`csi_inspector.py` 519-528).  Numpy computes
`dd = diff(p)`, reduces each difference into `[-π, π)` (the boundary value
`-π` is remapped to `π` when the raw difference is positive), zeroes the
correction where `|dd| < π`, and adds the cumulative corrections to the
tail of the row.  Here the same computation is expressed over exact reals,
where the reduction into `[-π, π)` is `toIcoMod two_pi_pos (-π)`. -/

open Real in
/-- Numpy's `ddmod` with the ambiguous-boundary fix: the representative of
`d` in `[-π, π)`, with `-π` replaced by `π` when `d > 0`. -/
noncomputable def wrapDiff (d : ℝ) : ℝ :=
  if toIcoMod Real.two_pi_pos (-π) d = -π ∧ 0 < d then π
  else toIcoMod Real.two_pi_pos (-π) d

open Real in
/-- Numpy's `ph_correct` for one difference: zero when `|d| < π`,
otherwise `ddmod - d`. -/
noncomputable def phaseCorrection (d : ℝ) : ℝ :=
  if |d| < π then 0 else wrapDiff d - d

/-- The difference the unwrapped sequence exhibits in place of `d`. -/
noncomputable def adjDiff (d : ℝ) : ℝ := d + phaseCorrection d

/-- Tail of the unwrap: `prevIn` is the previous input sample, `prevOut`
the previous output sample; each output steps by the adjusted difference. -/
noncomputable def unwrapAux (prevIn prevOut : ℝ) : List ℝ → List ℝ
  | [] => []
  | x :: xs => (prevOut + adjDiff (x - prevIn)) ::
      unwrapAux x (prevOut + adjDiff (x - prevIn)) xs

/-- `np.unwrap` on one row: the first sample is kept, later samples are
the cumulative sum of adjusted differences. -/
noncomputable def unwrap : List ℝ → List ℝ
  | [] => []
  | x :: xs => x :: unwrapAux x x xs

/-- The wrapped difference always lands in `[-π, π]`. -/
lemma wrapDiff_mem_Icc (d : ℝ) : wrapDiff d ∈ Set.Icc (-Real.pi) Real.pi := by
  unfold wrapDiff
  have h := toIcoMod_mem_Ico Real.two_pi_pos (-Real.pi) d
  rw [Set.mem_Ico] at h
  by_cases hc : toIcoMod Real.two_pi_pos (-Real.pi) d = -Real.pi ∧ 0 < d
  · rw [if_pos hc]
    exact Set.mem_Icc.mpr ⟨by linarith [Real.pi_pos], le_refl _⟩
  · rw [if_neg hc]
    exact Set.mem_Icc.mpr ⟨h.1, by linarith [h.2]⟩

/-- A difference of exactly `π` is wrapped to `π` (the positive-side
boundary fix). -/
lemma wrapDiff_pi : wrapDiff Real.pi = Real.pi := by
  unfold wrapDiff
  have hmem : -Real.pi ∈ Set.Ico (-Real.pi) (-Real.pi + 2 * Real.pi) := by
    rw [Set.mem_Ico]
    exact ⟨le_refl _, by linarith [Real.two_pi_pos]⟩
  have hself : toIcoMod Real.two_pi_pos (-Real.pi) (-Real.pi) = -Real.pi :=
    (toIcoMod_eq_self Real.two_pi_pos).mpr hmem
  have hval : toIcoMod Real.two_pi_pos (-Real.pi) Real.pi = -Real.pi := by
    have h2 : toIcoMod Real.two_pi_pos (-Real.pi) (-Real.pi + 2 * Real.pi) =
        -Real.pi := by
      rw [toIcoMod_add_right, hself]
    have harg : -Real.pi + 2 * Real.pi = Real.pi := by ring
    rw [harg] at h2
    exact h2
  rw [if_pos ⟨hval, Real.pi_pos⟩]

/-- A difference of exactly `-π` stays `-π` (the raw difference is not
positive, so the boundary fix does not fire). -/
lemma wrapDiff_neg_pi : wrapDiff (-Real.pi) = -Real.pi := by
  unfold wrapDiff
  have hmem : -Real.pi ∈ Set.Ico (-Real.pi) (-Real.pi + 2 * Real.pi) := by
    rw [Set.mem_Ico]
    exact ⟨le_refl _, by linarith [Real.two_pi_pos]⟩
  have hself : toIcoMod Real.two_pi_pos (-Real.pi) (-Real.pi) = -Real.pi :=
    (toIcoMod_eq_self Real.two_pi_pos).mpr hmem
  rw [if_neg, hself]
  rintro ⟨-, hpos⟩
  linarith [Real.pi_pos]

/-- A difference already in `[-π, π]` is left unchanged by the adjustment. -/
lemma adjDiff_eq_self (d : ℝ) (hd : d ∈ Set.Icc (-Real.pi) Real.pi) :
    adjDiff d = d := by
  unfold adjDiff phaseCorrection
  by_cases h : |d| < Real.pi
  · rw [if_pos h]; ring
  · rw [if_neg h]
    rw [Set.mem_Icc] at hd
    have habs : |d| = Real.pi :=
      le_antisymm (abs_le.mpr ⟨hd.1, hd.2⟩) (not_lt.mp h)
    rcases (abs_eq (le_of_lt Real.pi_pos)).mp habs with h1 | h2
    · rw [h1, wrapDiff_pi]; ring
    · rw [h2, wrapDiff_neg_pi]; ring

/-- Every adjusted difference lands in `[-π, π]`. -/
lemma adjDiff_mem_Icc (d : ℝ) : adjDiff d ∈ Set.Icc (-Real.pi) Real.pi := by
  unfold adjDiff phaseCorrection
  by_cases h : |d| < Real.pi
  · rw [if_pos h]
    have := abs_le.mp (le_of_lt h)
    exact Set.mem_Icc.mpr ⟨by linarith [this.1], by linarith [this.2]⟩
  · rw [if_neg h]
    have he : d + (wrapDiff d - d) = wrapDiff d := by ring
    rw [he]
    exact wrapDiff_mem_Icc d

/-- The adjustment is idempotent on differences. -/
lemma adjDiff_idem (d : ℝ) : adjDiff (adjDiff d) = adjDiff d :=
  adjDiff_eq_self _ (adjDiff_mem_Icc d)

/-- Unwrapping a tail that is already the output of an unwrap pass is the
identity: every difference it exhibits is an adjusted difference. -/
lemma unwrapAux_unwrapAux : ∀ (xs : List ℝ) (a b : ℝ),
    unwrapAux b b (unwrapAux a b xs) = unwrapAux a b xs := by
  intro xs
  induction xs with
  | nil => intro a b; rfl
  | cons x xs ih =>
    intro a b
    simp only [unwrapAux]
    have e1 : b + adjDiff (x - a) - b = adjDiff (x - a) := by ring
    rw [e1, adjDiff_idem]
    exact congrArg _ (ih x (b + adjDiff (x - a)))

/-- A second unwrap pass over one row is the identity on the output of the
first pass. -/
lemma unwrap_unwrap (p : List ℝ) : unwrap (unwrap p) = unwrap p := by
  cases p with
  | nil => rfl
  | cons x xs =>
    simp only [unwrap]
    exact congrArg _ (unwrapAux_unwrapAux xs x x)

/-! ## Helper lemmas for the address passes -/

/-- A sentinel string never enters the set through one `addMac` slot. -/
lemma addMac_sentinel_not_mem (s : String)
    (hs : s = "00:00:00:00:00:00" ∨ s = "FF:FF:FF:FF:FF:FF")
    (acc : List String) (addr : Option (List ℕ)) (h : s ∉ acc) :
    s ∉ addMac acc addr := by
  unfold addMac
  split
  · exact h
  · next mac _ =>
    split
    · exact h
    · next hsent =>
      unfold insertMac
      split
      · exact h
      · intro hc
        rcases List.mem_append.mp hc with h1 | h2
        · exact h h1
        · have he : s = mac := List.mem_singleton.mp h2
          rw [he] at hs
          exact hsent hs

/-- A sentinel string never enters the set through one frame. -/
lemma collectStep_sentinel_not_mem (s : String)
    (hs : s = "00:00:00:00:00:00" ∨ s = "FF:FF:FF:FF:FF:FF")
    (acc : List String) (f : Frame) (h : s ∉ acc) :
    s ∉ collectStep acc f := by
  unfold collectStep
  split
  · exact h
  · exact addMac_sentinel_not_mem s hs _ _
      (addMac_sentinel_not_mem s hs _ _ (addMac_sentinel_not_mem s hs _ _ h))

/-- A sentinel string never enters the set through the whole pass. -/
lemma foldl_collectStep_sentinel (s : String)
    (hs : s = "00:00:00:00:00:00" ∨ s = "FF:FF:FF:FF:FF:FF") :
    ∀ (frames : List Frame) (acc : List String), s ∉ acc →
      s ∉ frames.foldl collectStep acc := by
  intro frames
  induction frames with
  | nil => intro acc h; exact h
  | cons f fs ih =>
    intro acc h
    simp only [List.foldl_cons]
    exact ih _ (collectStep_sentinel_not_mem s hs acc f h)

/-- Every receiver recorded in `rx_list` passed the unicast check. -/
lemma rxStepMeta_forall (tgt : String) (acc : List String) (f : Frame)
    (h : ∀ x ∈ acc, is_valid_unicast (some x) = true) :
    ∀ x ∈ rxStepMeta tgt acc f, is_valid_unicast (some x) = true := by
  unfold rxStepMeta
  split
  · exact h
  · split
    · split
      · next r _ =>
        split
        · next hval =>
          intro x hx
          rcases List.mem_append.mp hx with h1 | h2
          · exact h x h1
          · rw [List.mem_singleton.mp h2]; exact hval
        · exact h
      · exact h
    · exact h

/-- The unicast invariant is preserved by the whole `rx_list` fold. -/
lemma foldl_rxStepMeta_forall (tgt : String) :
    ∀ (l : List Frame) (acc : List String),
      (∀ x ∈ acc, is_valid_unicast (some x) = true) →
      ∀ x ∈ l.foldl (rxStepMeta tgt) acc, is_valid_unicast (some x) = true := by
  intro l
  induction l with
  | nil => intro acc h; exact h
  | cons f fs ih =>
    intro acc h
    simp only [List.foldl_cons]
    exact ih _ (rxStepMeta_forall tgt acc f h)

/-- Every element of `rx_list` is a valid unicast address. -/
lemma rxListMeta_forall (tgt : String) (frames : List Frame) :
    ∀ r ∈ rxListMeta tgt frames, is_valid_unicast (some r) = true := by
  unfold rxListMeta
  exact foldl_rxStepMeta_forall tgt _ [] (by intro x hx; cases hx)

/-- `most_common` only ever returns an element of the tallied list. -/
lemma mostCommon_mem {l : List String} {s : String}
    (h : mostCommon l = some s) : s ∈ l :=
  List.argmax_mem h

/-- A successful per-frame pair is never a sentinel on either side. -/
lemma primaryOfFrame_not_sentinel (f : Frame) (t r : String)
    (h : primaryOfFrame f = some (t, r)) :
    t ≠ "00:00:00:00:00:00" ∧ t ≠ "FF:FF:FF:FF:FF:FF" ∧
    r ≠ "00:00:00:00:00:00" ∧ r ≠ "FF:FF:FF:FF:FF:FF" := by
  unfold primaryOfFrame at h
  split at h
  · exact absurd h (by simp)
  · split at h
    · split at h
      · next hcond =>
        split at h
        · next hc =>
          simp only [Option.some.injEq, Prod.mk.injEq] at h
          obtain ⟨rfl, rfl⟩ := h
          exact ⟨hc.2.2.1, hc.2.2.2, hc.1, hc.2.1⟩
        · exact absurd h (by simp)
      · exact absurd h (by simp)
    · exact absurd h (by simp)

/-- The first-pair primary scan only returns non-sentinel strings. -/
lemma findPrimaryPair_not_sentinel :
    ∀ (frames : List Frame) (t r : String),
      findPrimaryPair frames = some (t, r) →
      t ≠ "00:00:00:00:00:00" ∧ t ≠ "FF:FF:FF:FF:FF:FF" ∧
      r ≠ "00:00:00:00:00:00" ∧ r ≠ "FF:FF:FF:FF:FF:FF" := by
  intro frames
  induction frames with
  | nil => intro t r h; simp [findPrimaryPair] at h
  | cons f fs ih =>
    intro t r h
    unfold findPrimaryPair at h
    split at h
    · next p hp =>
      cases h
      exact primaryOfFrame_not_sentinel f t r (by rw [hp])
    · exact ih t r h

/-! ## Helper lemmas for the phase-shape question -/

/-- Replace a non-empty `Phase` vector by the fixed singleton `[9]`,
keeping an empty one empty.  Used to show the accept/drop decision reads
the phase vector only through its emptiness. -/
def squashPhase (c : CsiBlock) : CsiBlock :=
  { c with phase := if c.phase.isEmpty then [] else [9] }

/-- `squashPhase` keeps the amplitude vector. -/
lemma squashPhase_mag (c : CsiBlock) : (squashPhase c).mag = c.mag := rfl

/-- `squashPhase` keeps the emptiness of the phase vector. -/
lemma squashPhase_phase_isEmpty (c : CsiBlock) :
    (squashPhase c).phase.isEmpty = c.phase.isEmpty := by
  unfold squashPhase
  by_cases h : c.phase.isEmpty
  · simp [h]
  · simp [h]

/-- Acceptance commutes with squashing the phase vectors. -/
lemma acceptedOf_map_squashPhase (fs : List CsiBlock) :
    acceptedOf (fs.map squashPhase) = (acceptedOf fs).map squashPhase := by
  unfold acceptedOf
  rw [List.filter_map]
  have hpred : ((fun c : CsiBlock => !c.mag.isEmpty && !c.phase.isEmpty) ∘
      squashPhase) = (fun c : CsiBlock => !c.mag.isEmpty && !c.phase.isEmpty) := by
    funext c
    simp [Function.comp, squashPhase_mag, squashPhase_phase_isEmpty]
  rw [hpred]
  cases h : fs.filter (fun c => !c.mag.isEmpty && !c.phase.isEmpty) with
  | nil => simp
  | cons c rest =>
    simp only [List.map_cons, List.map]
    rw [List.filter_map]
    have hpred2 : ((fun d : CsiBlock =>
        decide (d.mag.length = (squashPhase c).mag.length)) ∘ squashPhase) =
        (fun d : CsiBlock => decide (d.mag.length = c.mag.length)) := by
      funext d
      simp [Function.comp, squashPhase_mag]
    rw [hpred2]

/-- The amplitude matrix is unchanged by squashing every phase vector:
the accept/drop decision never reads phase contents or lengths. -/
lemma buildRows_fst_squashPhase (fs : List CsiBlock) :
    (buildRows (fs.map squashPhase)).1 = (buildRows fs).1 := by
  rw [buildRows_spec, buildRows_spec]
  simp only [acceptedOf_map_squashPhase]
  rw [List.map_map]
  have : (CsiBlock.mag ∘ squashPhase) = CsiBlock.mag := by
    funext c; exact squashPhase_mag c
  rw [this]

/-! ## Claim theorems -/

/-- C1 counterexample: on the two-frame input whose second frame has a
matching amplitude length but a shorter non-empty phase vector, the
builder accepts both frames, so the phase matrix has rows of lengths 2
and 1 — the claimed "every row of both matrices has the identical tone
count" fails for the phase matrix. -/
theorem C1_counterexample :
    buildRows [⟨[1, 2], [1, 2], none, none⟩, ⟨[3, 4], [5], none, none⟩] =
      ([[1, 2], [3, 4]], [[1, 2], [5]]) ∧
    ¬ AllRowsSameLength
        (buildRows [⟨[1, 2], [1, 2], none, none⟩, ⟨[3, 4], [5], none, none⟩]).2 := by
  constructor
  · decide
  · decide

/-- C1 (amended): a frame contributes exactly one row to each matrix, in
arrival order, exactly when its `Mag` and `Phase` vectors are both
non-empty and its flattened `Mag` length equals the first accepted frame's
`Mag` length; frames with a differing `Mag` length are dropped, not
coerced, and every row of the *amplitude* matrix has the identical tone
count (the phase matrix is not given that guarantee by the check). -/
theorem C1_matrix_builder (fs : List CsiBlock) :
    buildRows fs = ((acceptedOf fs).map CsiBlock.mag,
                    (acceptedOf fs).map CsiBlock.phase) ∧
    AllRowsSameLength (buildRows fs).1 := by
  refine ⟨buildRows_spec fs, ?_⟩
  rw [buildRows_spec]
  intro r hr r' hr'
  simp only [List.mem_map] at hr hr'
  obtain ⟨c, hc, rfl⟩ := hr
  obtain ⟨c', hc', rfl⟩ := hr'
  exact acceptedOf_mag_length fs c hc c' hc'

/-- Witness for C1: the amended theorem evaluated on a concrete capture. -/
theorem C1_matrix_builder_witness :
    AllRowsSameLength (buildRows [⟨[6, 7], [8, 9], none, none⟩]).1 :=
  (C1_matrix_builder [⟨[6, 7], [8, 9], none, none⟩]).2

/-- C2: a capture with zero CSI-bearing frames stops with the
`noCsiFrames` outcome (no matrices are built); a capture that had
CSI-bearing frames but where no frame survives the emptiness/shape check
stops with the distinct `noCsiData` outcome, so the caller can tell the
two apart, and neither outcome carries matrices. -/
theorem C2_error_outcomes :
    (∀ frames : List Frame, (∀ f ∈ frames, f.csi = none) →
        analyzePipeline frames = Outcome.noCsiFrames) ∧
    (∀ frames : List Frame, (∃ f ∈ frames, f.csi ≠ none) →
        (buildRows (frames.filterMap Frame.csi)).1 = [] →
        analyzePipeline frames = Outcome.noCsiData) ∧
    Outcome.noCsiFrames ≠ Outcome.noCsiData ∧
    (∀ A P : List (List ℚ), Outcome.noCsiFrames ≠ Outcome.ok A P) := by
  refine ⟨?_, ?_, ?_, ?_⟩
  case refine_3 => intro h; cases h
  case refine_4 => intro A P h; cases h
  · intro frames hall
    unfold analyzePipeline
    have hfil : frames.filter (fun f => f.csi.isSome) = [] := by
      apply List.filter_eq_nil_iff.mpr
      intro f hf
      simp [hall f hf]
    rw [hfil]
    rfl
  · intro frames hex hempty
    unfold analyzePipeline
    obtain ⟨f, hf, hcsi⟩ := hex
    have hne : frames.filter (fun f => f.csi.isSome) ≠ [] := by
      intro hcontra
      have hnot := List.filter_eq_nil_iff.mp hcontra f hf
      cases hc : f.csi with
      | none => exact hcsi hc
      | some c => rw [hc] at hnot; exact hnot rfl
    have hie : (frames.filter (fun f => f.csi.isSome)).isEmpty = false :=
      List.isEmpty_eq_false.mpr hne
    have hmat : (buildRowsM (frames.filterMap Frame.csi)).1.1.isEmpty = true := by
      have : (buildRowsM (frames.filterMap Frame.csi)).1.1 = [] := hempty
      rw [this]
      rfl
    simp only [hie, hmat]
    rfl

/-- Witness for C2: both outcomes realized on concrete captures. -/
theorem C2_error_outcomes_witness :
    analyzePipeline [⟨none, none, none⟩] = Outcome.noCsiFrames ∧
    analyzePipeline [⟨none, some ⟨[], [], none, none⟩, none⟩] =
      Outcome.noCsiData :=
  ⟨C2_error_outcomes.1 [⟨none, none, none⟩] (by decide),
   C2_error_outcomes.2.1 [⟨none, some ⟨[], [], none, none⟩, none⟩]
     (by decide) (by decide)⟩

/-- C9: applying the unwrap transform along the tone axis to a phase
matrix that has already been unwrapped returns the same matrix — a second
unwrap pass is the identity on the output of the first (exact-real model
of `np.unwrap(..., axis=1)`). -/
theorem C9_unwrap_idempotent (M : List (List ℝ)) :
    (M.map unwrap).map unwrap = M.map unwrap := by
  induction M with
  | nil => rfl
  | cons r M ih =>
    simp only [List.map_cons]
    rw [unwrap_unwrap, ih]

/-- C10: the accept/drop decision of the matrix builder reads the phase
vector only through its emptiness — replacing every non-empty phase vector
by a fixed singleton leaves the amplitude matrix unchanged — and on a
concrete input a frame whose amplitude length matches but whose non-empty
phase length differs from the first accepted frame's is accepted, so the
equal-shape guarantee holds for the amplitude matrix but not for the
phase matrix. -/
theorem C10_phase_length_unchecked :
    (∀ fs : List CsiBlock,
        (buildRows (fs.map squashPhase)).1 = (buildRows fs).1) ∧
    buildRows [⟨[1, 2], [3, 4], none, none⟩, ⟨[5, 6], [7], none, none⟩] =
      ([[1, 2], [5, 6]], [[3, 4], [7]]) ∧
    ¬ AllRowsSameLength
        (buildRows [⟨[1, 2], [3, 4], none, none⟩, ⟨[5, 6], [7], none, none⟩]).2 ∧
    AllRowsSameLength
        (buildRows [⟨[1, 2], [3, 4], none, none⟩, ⟨[5, 6], [7], none, none⟩]).1 := by
  refine ⟨buildRows_fst_squashPhase, by decide, by decide, by decide⟩

/-- Witness for C10: the phase-content invariance evaluated on a concrete
capture. -/
theorem C10_phase_length_unchecked_witness :
    (buildRows ([⟨[8], [1, 1], none, none⟩].map squashPhase)).1 =
      (buildRows [⟨[8], [1, 1], none, none⟩]).1 :=
  C10_phase_length_unchecked.1 [⟨[8], [1, 1], none, none⟩]

/-- C3 counterexample: the `csi_metadata.py` distinct-address pass has no
sentinel exclusion, so a frame carrying the broadcast address in `Addr1`
puts `FF:FF:FF:FF:FF:FF` into its distinct-address set — the claim fails
for that address-extraction pass. -/
theorem C3_counterexample :
    "FF:FF:FF:FF:FF:FF" ∈ collectMacsMeta
      [⟨some ⟨some [255, 255, 255, 255, 255, 255], none, none⟩, none, none⟩] := by
  decide

/-- C3 (amended): the `complete_csi.py` distinct-address pass never admits
the all-zero or broadcast sentinel; the first-pair primary TX/RX are never
sentinels; and the most-frequent primary receiver of `csi_metadata.py` is
always a valid unicast address (in particular not a sentinel). The
`csi_metadata.py` distinct-address set, however, can contain sentinels. -/
theorem C3_sentinel_exclusion :
    (∀ frames : List Frame,
        "00:00:00:00:00:00" ∉ collectMacs frames ∧
        "FF:FF:FF:FF:FF:FF" ∉ collectMacs frames) ∧
    (∀ (frames : List Frame) (t r : String),
        findPrimaryPair frames = some (t, r) →
        t ≠ "00:00:00:00:00:00" ∧ t ≠ "FF:FF:FF:FF:FF:FF" ∧
        r ≠ "00:00:00:00:00:00" ∧ r ≠ "FF:FF:FF:FF:FF:FF") ∧
    (∀ (tgt : String) (frames : List Frame) (rx : String),
        rxPrimaryMeta tgt frames = some rx →
        is_valid_unicast (some rx) = true) := by
  refine ⟨?_, findPrimaryPair_not_sentinel, ?_⟩
  · intro frames
    constructor
    · exact foldl_collectStep_sentinel _ (Or.inl rfl) frames [] (by intro h; cases h)
    · exact foldl_collectStep_sentinel _ (Or.inr rfl) frames [] (by intro h; cases h)
  · intro tgt frames rx h
    exact rxListMeta_forall tgt frames rx (mostCommon_mem h)

/-- Witness for C3: the primary-pair part evaluated on a concrete frame. -/
theorem C3_sentinel_exclusion_witness :
    "02:02:02:02:02:02" ≠ "00:00:00:00:00:00" ∧
    "02:02:02:02:02:02" ≠ "FF:FF:FF:FF:FF:FF" ∧
    "01:02:03:04:05:06" ≠ "00:00:00:00:00:00" ∧
    "01:02:03:04:05:06" ≠ "FF:FF:FF:FF:FF:FF" :=
  C3_sentinel_exclusion.2.1
    [⟨some ⟨some [1, 2, 3, 4, 5, 6], some [2, 2, 2, 2, 2, 2], none⟩, none, none⟩]
    "02:02:02:02:02:02" "01:02:03:04:05:06" (by decide)

/-- C4: for timestamps `[100, 100, 300]` in microseconds the duration is
`0.0002` seconds and the rate is `3 / 0.0002 = 15000`; for the single
timestamp `[100]` both duration and rate are reported absent (`none`),
never a numeric zero; in general fewer than two timestamps leave both
absent, and a zero duration never produces a rate. -/
theorem C4_link_timing :
    durationSec [100, 100, 300] = some (1 / 5000) ∧
    csiRate 3 [100, 100, 300] = some 15000 ∧
    durationSec [100] = none ∧
    csiRate 1 [100] = none ∧
    (∀ ts : List ℤ, ts.length < 2 → ∀ n : ℕ,
        durationSec ts = none ∧ csiRate n ts = none) ∧
    (∀ (n : ℕ) (ts : List ℤ), durationSec ts = some 0 → csiRate n ts = none) := by
  have hdur : durationSec [100, 100, 300] = some (1 / 5000) := by
    show some ((((listMaxZ 100 [100, 300]) - (listMinZ 100 [100, 300]) : ℤ) : ℚ) /
        1000000) = some (1 / 5000)
    norm_num [show listMaxZ 100 [100, 300] = 300 from by decide,
              show listMinZ 100 [100, 300] = 100 from by decide]
  refine ⟨hdur, ?_, rfl, rfl, ?_, ?_⟩
  · unfold csiRate
    rw [hdur]
    norm_num
  · intro ts hlen n
    cases ts with
    | nil => exact ⟨rfl, rfl⟩
    | cons t rest =>
      cases rest with
      | nil => exact ⟨rfl, rfl⟩
      | cons t2 r2 =>
        exfalso
        simp only [List.length_cons] at hlen
        omega
  · intro n ts h
    unfold csiRate
    rw [h]
    norm_num

/-- Witness for C4: the general clauses evaluated on concrete inputs. -/
theorem C4_link_timing_witness :
    (durationSec [7] = none ∧ csiRate 4 [7] = none) ∧
    csiRate 2 [5, 5] = none :=
  ⟨C4_link_timing.2.2.2.2.1 [7] (by decide) 4,
   C4_link_timing.2.2.2.2.2 2 [5, 5] (by
     show some ((((listMaxZ 5 [5]) - (listMinZ 5 [5]) : ℤ) : ℚ) / 1000000) =
       some 0
     norm_num [show listMaxZ 5 [5] = 5 from by decide,
               show listMinZ 5 [5] = 5 from by decide])⟩

/-- C5 counterexample: the claim requires a numeric-zero duration for a
single-sample capture, but the code leaves the duration `None`: for
timestamps `[100]` the computed duration is absent, not `some 0`. -/
theorem C5_counterexample :
    durationSec [100] = none ∧ durationSec [100] ≠ some 0 :=
  ⟨rfl, by decide⟩

/-- C5 (amended): the duration equals max timestamp minus min timestamp
(scaled to seconds) when at least two samples are present and is *absent*
(`None`, not a numeric zero) when fewer than two samples are present; the
rate equals count divided by duration when the duration is positive and is
*absent* when the duration is zero. -/
theorem C5_link_stats :
    (∀ (t : ℤ) (rest : List ℤ), rest ≠ [] →
        durationSec (t :: rest) =
          some (((listMaxZ t rest - listMinZ t rest : ℤ) : ℚ) / 1000000)) ∧
    (∀ ts : List ℤ, ts.length < 2 → durationSec ts = none) ∧
    (∀ (n : ℕ) (ts : List ℤ) (d : ℚ), durationSec ts = some d → 0 < d →
        csiRate n ts = some ((n : ℚ) / d)) ∧
    (∀ (n : ℕ) (ts : List ℤ), durationSec ts = some 0 → csiRate n ts = none) := by
  refine ⟨?_, ?_, ?_, ?_⟩
  · intro t rest hne
    cases rest with
    | nil => exact absurd rfl hne
    | cons a l => rfl
  · intro ts hlen
    cases ts with
    | nil => rfl
    | cons t rest =>
      cases rest with
      | nil => rfl
      | cons a l =>
        exfalso
        simp only [List.length_cons] at hlen
        omega
  · intro n ts d h hpos
    unfold csiRate
    rw [h]
    simp [hpos]
  · intro n ts h
    unfold csiRate
    rw [h]
    norm_num

/-- Witness for C5: the amended clauses evaluated on concrete inputs. -/
theorem C5_link_stats_witness :
    durationSec [4, 10] =
      some (((listMaxZ 4 [10] - listMinZ 4 [10] : ℤ) : ℚ) / 1000000) ∧
    durationSec [9] = none :=
  ⟨C5_link_stats.1 4 [10] (by decide), C5_link_stats.2.1 [9] (by decide)⟩

/-- C6: a requested target transmitter that was never observed in the
capture makes both scripts skip the filtering, use all CSI-bearing frames
unchanged, and record the non-fatal `targetNotObserved` condition
(`csi_inspector.py`; `csi_metadata.py` records the same fallback as an
unapplied filter) instead of raising. -/
theorem C6_target_fallback (target : String) (allMacs : List String)
    (csiAll : List Frame) (h1 : target ≠ "") (h2 : normS target ≠ "")
    (h3 : normS target ∉ allMacs) :
    selectFramesInspector true (some target) allMacs csiAll =
      (csiAll, FilterNote.targetNotObserved) ∧
    selectFramesMeta (normS target) allMacs csiAll = (csiAll, false) := by
  constructor
  · unfold selectFramesInspector
    simp [h1, h2, h3]
  · unfold selectFramesMeta
    rw [if_neg h3]

/-- Witness for C6: the fallback on a concrete capture with an unobserved
target. -/
theorem C6_target_fallback_witness :
    selectFramesInspector true (some "AA:AA:AA:AA:AA:AA") []
      [⟨none, some ⟨[1], [1], none, none⟩, none⟩] =
      ([⟨none, some ⟨[1], [1], none, none⟩, none⟩],
        FilterNote.targetNotObserved) ∧
    selectFramesMeta (normS "AA:AA:AA:AA:AA:AA") []
      [⟨none, some ⟨[1], [1], none, none⟩, none⟩] =
      ([⟨none, some ⟨[1], [1], none, none⟩, none⟩], false) :=
  C6_target_fallback "AA:AA:AA:AA:AA:AA" [] _
    (by decide) (by decide) (by decide)

/-- C7: `is_valid_unicast` accepts exactly the present, non-sentinel
strings whose first colon-separated field parses as hexadecimal with an
even value — equivalently, every accepted address has bit 0 of its first
octet equal to 0. -/
theorem C7_unicast_validity (mac : Option String) :
    is_valid_unicast mac = true ↔
      ∃ s, mac = some s ∧ s ≠ "00:00:00:00:00:00" ∧ s ≠ "FF:FF:FF:FF:FF:FF" ∧
        ∃ n : ℤ, pyIntHex (firstField s) = some n ∧ n % 2 = 0 := by
  cases mac with
  | none => simp [is_valid_unicast]
  | some m =>
    simp only [is_valid_unicast]
    constructor
    · intro h
      refine ⟨m, rfl, ?_⟩
      by_cases hsent : m = "00:00:00:00:00:00" ∨ m = "FF:FF:FF:FF:FF:FF"
      · rw [if_pos hsent] at h
        cases h
      · rw [if_neg hsent] at h
        push_neg at hsent
        refine ⟨hsent.1, hsent.2, ?_⟩
        cases hp : pyIntHex (firstField m) with
        | none =>
          rw [hp] at h
          cases h
        | some n =>
          rw [hp] at h
          exact ⟨n, rfl, of_decide_eq_true h⟩
    · rintro ⟨s, hs, h0, hF, n, hp, heven⟩
      have hms : m = s := Option.some.inj hs
      subst hms
      have hsent : ¬(m = "00:00:00:00:00:00" ∨ m = "FF:FF:FF:FF:FF:FF") := by
        rintro (h | h)
        · exact h0 h
        · exact hF h
      rw [if_neg hsent, hp]
      exact decide_eq_true heven

/-- Witness for C7: the default target address of the scripts is accepted
(first octet `0x24 = 36`, even). -/
theorem C7_unicast_validity_witness :
    is_valid_unicast (some "24:4B:FE:BE:FF:DC") = true :=
  (C7_unicast_validity (some "24:4B:FE:BE:FF:DC")).mpr
    ⟨"24:4B:FE:BE:FF:DC", rfl, by decide, by decide, 36, by decide, by decide⟩

/-- C8 counterexample: on a capture whose first CSI-bearing frame is
dropped by the emptiness check and carries no `SubcarrierBandwidth`, the
`complete_csi.py` mapping still takes the metadata from that dropped frame
and emits an offset list of all zeros (`[3] * 0.0 = [0]`) instead of
skipping — contradicting both the "first surviving frame" sourcing and
"no offset list is produced". -/
theorem C8_counterexample :
    (buildRowsM [⟨[], [], some [3], none⟩, ⟨[1], [1], some [4], some 5⟩]).2 =
      some ⟨[], [], some [3], none⟩ ∧
    (buildRowsM [⟨[], [], some [3], none⟩, ⟨[1], [1], some [4], some 5⟩]).1.1 =
      [[1]] ∧
    freqMappingComplete ⟨[], [], some [3], none⟩ = some ([3], [0]) := by
  refine ⟨by decide, by decide, by simp [freqMappingComplete]⟩

/-- C8 (amended): per-tone frequency offsets equal subcarrier index times
the declared tone spacing, with both fields read once from the *first
CSI-bearing frame's* metadata (which need not survive the emptiness/shape
check); `csi_inspector.py` skips the derivation non-fatally when the
spacing is missing or zero, while `complete_csi.py` treats a missing
spacing as `0.0` and emits an all-zero offset list (only a missing or
empty `SubcarrierIndex` makes it skip). -/
theorem C8_freq_mapping :
    (∀ (meta : CsiBlock) (idx : List ℤ) (df : ℚ),
        meta.subcarrierIndex = some idx → idx ≠ [] →
        meta.subcarrierBandwidth = some df → df ≠ 0 →
        freqMappingInspector meta = some (idx, idx.map (fun i : ℤ => (i : ℚ) * df)) ∧
        freqMappingComplete meta = some (idx, idx.map (fun i : ℤ => (i : ℚ) * df))) ∧
    (∀ (meta : CsiBlock) (idx : List ℤ),
        meta.subcarrierIndex = some idx → idx ≠ [] →
        meta.subcarrierBandwidth = none →
        freqMappingInspector meta = none ∧
        freqMappingComplete meta = some (idx, idx.map (fun _ : ℤ => (0 : ℚ)))) ∧
    (∀ (meta : CsiBlock) (idx : List ℤ),
        meta.subcarrierIndex = some idx → idx ≠ [] →
        meta.subcarrierBandwidth = some 0 →
        freqMappingInspector meta = none) ∧
    (∀ fs : List CsiBlock, (buildRowsM fs).2 = fs.head?) := by
  refine ⟨?_, ?_, ?_, buildRowsM_snd⟩
  · intro meta idx df hidx hne hdf hdf0
    have hie : idx.isEmpty = false := List.isEmpty_eq_false.mpr hne
    constructor
    · simp [freqMappingInspector, hidx, hie, hdf, hdf0]
    · simp [freqMappingComplete, hidx, hie, hdf]
  · intro meta idx hidx hne hbw
    have hie : idx.isEmpty = false := List.isEmpty_eq_false.mpr hne
    constructor
    · simp [freqMappingInspector, hidx, hie, hbw]
    · simp only [freqMappingComplete, hidx, hbw]
      rw [if_neg (show ¬(idx.isEmpty = true) by rw [hie]; exact Bool.false_ne_true)]
      simp only [Option.getD_none, mul_zero]
  · intro meta idx hidx hne hbw
    have hie : idx.isEmpty = false := List.isEmpty_eq_false.mpr hne
    simp [freqMappingInspector, hidx, hie, hbw]

/-- Witness for C8: both mappings evaluated on concrete metadata. -/
theorem C8_freq_mapping_witness :
    freqMappingInspector ⟨[1], [1], some [2, -2], some 10⟩ =
      some ([2, -2], ([2, -2] : List ℤ).map (fun i : ℤ => (i : ℚ) * 10)) ∧
    freqMappingInspector ⟨[1], [1], some [2], none⟩ = none :=
  ⟨(C8_freq_mapping.1 ⟨[1], [1], some [2, -2], some 10⟩ [2, -2] 10 rfl
      (by decide) rfl (by decide)).1,
   (C8_freq_mapping.2.1 ⟨[1], [1], some [2], none⟩ [2] rfl
      (by decide) rfl).1⟩
